import Mathlib

/-!
Shallow embedding of the GEPA optimizer in `lab5_mlflow/gepa_optimizer.py`
(together with the pipeline data model of `lab5_mlflow/gepa.py`), and proofs
of the specification claims about it.

Python dictionaries are embedded as association lists, numpy float arrays as
lists of rationals, raised exceptions as `Except.error`, and the stochastic /
external effects of the loop (numpy RNG draws, pipeline execution, the LLM
call inside reflection) as explicit oracle functions threaded through the
state-transition functions.
-/

namespace Gepa

/-- Embedding of `ToastModule` (gepa.py): one pipeline stage.  The schema
descriptors and performance history are informational only and never read by
the optimizer logic under verification, so they are omitted. -/
structure ToastModule where
  name : String
  prompt : String
  version : Nat
deriving Repr, DecidableEq

/-- Embedding of `ToastNeo4jPipeline` (gepa.py): the `modules` dict keyed by
stage name, and the ordered `module_sequence`. -/
structure ToastNeo4jPipeline where
  modules : List (String × ToastModule)
  module_sequence : List String
deriving Repr, DecidableEq

/-- Python `pipeline.modules[name]` as a total lookup: `none` models a
`KeyError`. -/
def lookupModule (p : ToastNeo4jPipeline) (name : String) : Option ToastModule :=
  (p.modules.find? (fun kv => kv.fst == name)).map Prod.snd

/-- Dict update `pipeline.modules[name] = f(pipeline.modules[name])`; a dict
has unique keys, so updating every matching entry of the association list is
the same operation. -/
def setModule (p : ToastNeo4jPipeline) (name : String) (f : ToastModule → ToastModule) :
    ToastNeo4jPipeline :=
  { p with modules := p.modules.map (fun kv => if kv.fst == name then (kv.fst, f kv.snd) else kv) }

/-- Embedding of optimize lines 232-234: `new_candidate = deepcopy(parent);
new_candidate.modules[module_name].prompt = new_prompt;
new_candidate.modules[module_name].version += 1`. -/
def mutateCandidate (parent : ToastNeo4jPipeline) (module_name new_prompt : String) :
    ToastNeo4jPipeline :=
  setModule parent module_name (fun m => { m with prompt := new_prompt, version := m.version + 1 })

/-- Embedding of the pipeline output dict as seen by `_evaluate_output`: a
field is `none` when the corresponding key is absent.  Node / relationship /
alert entries are reduced to the single key the scorer reads
(`n.get('label')`, `r.get('type')`, `a.get('pattern_type')`), each an
`Option String` because `.get` returns `None` on a missing key. -/
structure Output where
  nodes : Option (List (Option String))
  relationships : Option (List (Option String))
  alerts : Option (List (Option String))
  cypher_queries : Option (List String)
deriving Repr, DecidableEq

/-- Embedding of the gold-standard dict as read by `_evaluate_output`. -/
structure Expected where
  expected_nodes : Option (List String)
  expected_relationships : Option (List (Option String))
  known_patterns : Option (List String)
deriving Repr, DecidableEq

/-- Python mean over a list of floats, in ℚ.  (`np.mean([])` is NaN; every
call site in the optimizer either guards the empty case or only compares the
result with `>`, which is `False` on NaN just as `0 > 0` is here.) -/
def qmean (l : List ℚ) : ℚ := l.sum / l.length

/-- The ratio pattern `len(hits) / len(denomSet) if denomSet else 0.0`
shared by the sub-scores: ℚ-division with the same truthiness guard the
source uses. -/
def ratioScore (a b : Nat) : ℚ := if 0 < b then (a : ℚ) / (b : ℚ) else 0

/-- Node sub-score of `_evaluate_output` (lines 373-379): set-based F1
between extracted labels and expected labels. -/
def node_f1 (ns : List (Option String)) (ens : List String) : ℚ :=
  let inter := (ns.toFinset ∩ (ens.map some).toFinset).card
  let p := ratioScore inter ns.toFinset.card
  let r := ratioScore inter (ens.map some).toFinset.card
  if 0 < p + r then 2 * (p * r) / (p + r) else 0

/-- Relationship sub-score (lines 380-384): recall of relationship types. -/
def rel_recall (rs : List (Option String)) (ers : List (Option String)) : ℚ :=
  ratioScore ((rs.toFinset ∩ ers.toFinset).card) ers.toFinset.card

/-- Alert sub-score (lines 385-389): recall of known patterns, defined as 1
when no patterns are expected. -/
def alert_recall (als : List (Option String)) (kps : List String) : ℚ :=
  let known : Finset (Option String) := (kps.map some).toFinset
  if 0 < known.card then ratioScore ((als.toFinset ∩ known).card) known.card else 1

/-- Auxiliary-artifact sub-score (lines 390-393): presence of at least one
generated cypher query.  Note the source gates this branch on
`'cypher_queries' in output` only — the expected dict is not consulted. -/
def cypher_score (qs : List String) : ℚ := if 0 < qs.length then 1 else 0

/-- The list of applicable sub-scores accumulated by `_evaluate_output`, in
source order. -/
def subScores (o : Output) (e : Expected) : List ℚ :=
  (match o.nodes, e.expected_nodes with
   | some ns, some ens => [node_f1 ns ens]
   | _, _ => []) ++
  (match o.relationships, e.expected_relationships with
   | some rs, some ers => [rel_recall rs ers]
   | _, _ => []) ++
  (match o.alerts, e.known_patterns with
   | some als, some kps => [alert_recall als kps]
   | _, _ => []) ++
  (match o.cypher_queries with
   | some qs => [cypher_score qs]
   | none => [])

/-- Embedding of `GEPAOptimizer._evaluate_output` (lines 371-394):
`float(np.mean(scores)) if scores else 0.0`. -/
def evaluate_output (o : Output) (e : Expected) : ℚ :=
  if subScores o e = [] then 0 else qmean (subScores o e)

/-- The scorer as the spec's words describe it for comparison: each of the
four sub-scores, the auxiliary-artifact check included, applies only when
both the output and the expected dict carry the relevant field.  The
expected dict read by the source has no auxiliary-artifact field at all, so
under this reading that sub-score never applies. -/
def subScores_specGated (o : Output) (e : Expected) : List ℚ :=
  (match o.nodes, e.expected_nodes with
   | some ns, some ens => [node_f1 ns ens]
   | _, _ => []) ++
  (match o.relationships, e.expected_relationships with
   | some rs, some ers => [rel_recall rs ers]
   | _, _ => []) ++
  (match o.alerts, e.known_patterns with
   | some als, some kps => [alert_recall als kps]
   | _, _ => [])

/-- The claim's version of the score, built on the both-sides gating. -/
def evaluate_output_specGated (o : Output) (e : Expected) : ℚ :=
  if subScores_specGated o e = [] then 0 else qmean (subScores_specGated o e)

/-! Embedding of `_select_pareto_candidate` (lines 260-289).  The score
matrix is a list of rows; `entry M i j` is `scores_matrix[i, j]` (out-of-range
defaults never matter: every use ranges over the actual shape). -/

/-- Matrix entry `M[i][j]`. -/
def entry (M : List (List ℚ)) (i j : Nat) : ℚ := (M.getD i []).getD j 0

/-- Column count of the (rectangular) score matrix. -/
def ncolsOf (M : List (List ℚ)) : Nat := (M.headD []).length

/-- Column `j` of the matrix, `scores_matrix[:, j]`. -/
def columnOf (M : List (List ℚ)) (j : Nat) : List ℚ := M.map (fun row => row.getD j 0)

/-- Lines 266-267: the indices achieving the maximum of column `j`
(`np.where(col == np.max(col))`). -/
def bestIndices (M : List (List ℚ)) (j : Nat) : List Nat :=
  match (columnOf M j).max? with
  | some m => (List.range M.length).filter (fun i => entry M i j == m)
  | none => []

/-- Lines 269-271: the union of all per-column best sets, as the ascending
list of its members (Python set semantics: only membership is ever used). -/
def paretoSet (M : List (List ℚ)) : List Nat :=
  (List.range M.length).filter
    (fun i => (List.range (ncolsOf M)).any (fun j => (bestIndices M j).contains i))

/-- Line 278: row `a` dominates row `b`
(`np.all(M[a] >= M[b]) and np.any(M[a] > M[b])`). -/
def dominates (M : List (List ℚ)) (a b : Nat) : Bool :=
  ((List.range (ncolsOf M)).all (fun k => decide (entry M b k ≤ entry M a k))) &&
  ((List.range (ncolsOf M)).any (fun k => decide (entry M b k < entry M a k)))

/-- Lines 272-282: members of the Pareto-relevant set not dominated by
another member. -/
def nonDominated (M : List (List ℚ)) : List Nat :=
  (paretoSet M).filter (fun i => ! (paretoSet M).any (fun j => j != i && dominates M j i))

/-- Line 285: how many per-column best sets contain candidate `i`. -/
def bestFrequency (M : List (List ℚ)) (i : Nat) : Nat :=
  (List.range (ncolsOf M)).countP (fun j => (bestIndices M j).contains i)

/-- Embedding of `_select_pareto_candidate`.  The final frequency-weighted
`np.random.choice` draw is abstracted by the oracle `pick`: whatever the
weights, the draw returns some element of `non_dominated`, here
`nd[pick % |nd|]`.  Both early-return branches are literal. -/
def select_pareto_candidate (M : List (List ℚ)) (pick : Nat) : Nat :=
  if M.length * ncolsOf M = 0 then 0
  else
    let nd := nonDominated M
    if nd.isEmpty then 0
    else nd.getD (pick % nd.length) 0

/-- Row sum over the matrix shape, the measure used to exhibit a
non-dominated member. -/
def rowSum (M : List (List ℚ)) (i : Nat) : ℚ :=
  ∑ k ∈ Finset.range (ncolsOf M), entry M i k

/-! Embedding of the candidate pool (`candidate_pool`, `parent_indices`,
`scores_matrix` fields of `GEPAOptimizer`) with `_prune_candidates`
(lines 409-415) and `_get_ancestor_prompts` (lines 396-403). -/

/-- The three parallel pool fields of the optimizer. -/
structure PoolState where
  candidate_pool : List ToastNeo4jPipeline
  parent_indices : List (Option Nat)
  scores_matrix : List (List ℚ)
deriving Repr, DecidableEq

/-- The permutation `np.argsort(values)` sorting indices by value
ascending.  numpy leaves tie order unspecified; this embedding uses the
stable insertion sort, and no theorem below depends on tie order. -/
def argsortAsc (l : List ℚ) : List Nat :=
  List.insertionSort (fun a b => l.getD a 0 ≤ l.getD b 0) (List.range l.length)

/-- Embedding of `_prune_candidates`: keep the `max_candidates` rows of
highest mean score (`np.argsort(avg)[-max_candidates:]`) and rebuild the
three lists by indexing with the kept (old) indices.  Note the source does
not renumber the surviving `parent_indices` entries. -/
def prune_candidates (st : PoolState) (max_candidates : Nat) : PoolState :=
  let avg := st.scores_matrix.map qmean
  let sorted := argsortAsc avg
  let keep := sorted.drop (sorted.length - max_candidates)
  { candidate_pool := keep.filterMap (fun i => st.candidate_pool.get? i)
    parent_indices := keep.filterMap (fun i => st.parent_indices.get? i)
    scores_matrix := keep.filterMap (fun i => st.scores_matrix.get? i) }

/-- One step of the `while cur is not None and len(prompts) < 5` walk of
`_get_ancestor_prompts`; the fuel argument is `5 - len(prompts)`.  A `none`
result models an uncaught `IndexError`/`KeyError` (pool index or module name
out of range), `some prompts` a normal return. -/
def ancestorsAux (st : PoolState) (module_name : String) :
    Nat → Option Nat → List String → Option (List String)
  | _, none, acc => some acc
  | 0, some _, acc => some acc
  | fuel + 1, some cur, acc =>
    match st.candidate_pool.get? cur with
    | none => none
    | some cand =>
      match lookupModule cand module_name with
      | none => none
      | some m =>
        match st.parent_indices.get? cur with
        | none => none
        | some nxt => ancestorsAux st module_name fuel nxt (acc ++ [m.prompt])

/-- Embedding of `_get_ancestor_prompts(parent_idx, module_name)`. -/
def get_ancestor_prompts (st : PoolState) (parent_idx : Nat) (module_name : String) :
    Option (List String) :=
  ancestorsAux st module_name 5 (some parent_idx) []

/-! Embedding of `LLMAdapter` (lines 19-184), restricted to the paths a
client-less adapter can reach.  Message dicts keep the two keys the adapter
reads; a key present with value `None` and an absent key are both modelled
as `none` (the adapter treats a falsy value the same way in every branch it
takes here). -/

/-- A chat message dict: `m.get('role', 'user')`, `m.get('content', '')`. -/
structure Message where
  role : Option String
  content : Option String
deriving Repr, DecidableEq

/-- Embedding of `LLMAdapter._messages_to_text`. -/
def messages_to_text (msgs : List Message) : String :=
  String.intercalate "\n\n"
    (msgs.map (fun m => "[" ++ m.role.getD "user" ++ "] " ++ m.content.getD ""))

/-- The `text_input[:1000] + "..." if len(text_input) > 1000 else text_input`
truncation of the fallback. -/
def truncateInput (s : String) : String :=
  if s.length > 1000 then s.take 1000 ++ "..." else s

/-- The deterministic fallback string built on line 67 when `client is None`. -/
def fallbackText (msgs : List Message) : String :=
  "```\n# REFINED PROMPT (fallback)\n" ++ truncateInput (messages_to_text msgs) ++ "\n```"

/-- One item of the `content` list inside a Responses-API output message. -/
structure ContentItem where
  ctype : Option String
  text : Option String
deriving Repr, DecidableEq

/-- One item of the Responses-API `output` list (the adapter only ever reads
its `content` key, `first.get('content', [])`). -/
structure OutputItem where
  content : List ContentItem
deriving Repr, DecidableEq

/-- A legacy ChatCompletion message. -/
structure ChoiceMsg where
  content : Option String
deriving Repr, DecidableEq

/-- A legacy ChatCompletion choice (`.message.content` or top-level `text`). -/
structure Choice where
  message : Option ChoiceMsg
  text : Option String
deriving Repr, DecidableEq

/-- A response object as `extract_text_from_response` probes it: attributes
that may be absent are `Option`s / empty lists, and `asString` is the
`str(resp)` last resort. -/
structure Resp where
  output_text : Option String
  output : List OutputItem
  choices : List Choice
  asString : String
deriving Repr, DecidableEq

/-- The inner loop of extraction branch 2: the first content item carrying a
`text` key supplies the result (the `type == 'output_text'` test is
immediately subsumed by the following `if 'text' in c`). -/
def firstContentText : List ContentItem → Option String
  | [] => none
  | c :: rest => match c.text with
    | some t => some t
    | none => firstContentText rest

/-- Extraction branch 3 on the legacy `choices` shape. -/
def extractFromChoices (r : Resp) : String :=
  match r.choices with
  | [] => r.asString
  | first :: _ =>
    match first.message with
    | some m => (m.content).getD r.asString
    | none => (first.text).getD r.asString

/-- Embedding of `LLMAdapter.extract_text_from_response` (lines 122-184):
branch 1 returns a truthy `output_text`; branch 2 scans the `output` list;
branch 3 reads legacy `choices`; branch 4 falls back to `str(resp)`. -/
def extract_text_from_response (r : Resp) : String :=
  let c1 := r.output_text.getD ""
  if c1 ≠ "" then c1
  else
    match r.output with
    | first :: _ =>
      (match firstContentText first.content with
       | some t => t
       | none => extractFromChoices r)
    | [] => extractFromChoices r

/-- Embedding of `LLMAdapter.create_completion` on the `client is None` path
(lines 57-69): the deterministic `Resp` stub carrying the fallback string. -/
def create_completion_no_client (msgs : List Message) : Resp :=
  { output_text := some (fallbackText msgs)
    output := [{ content := [{ ctype := some "output_text", text := some (fallbackText msgs) }] }]
    choices := []
    asString := "" }

/-! Embedding of `GEPAOptimizer.optimize` (lines 204-258).  The loop's
effectful collaborators are oracles in `Env`: `exec` is
`pipeline.execute_with_traces` reduced to its output (an `Except.error`
models a raised exception; the traces feed only the feedback string, which
the claims never inspect), `minibatch` is the per-iteration
`np.random.choice(train_data, min(minibatch_size, len(train_data)),
replace=False)` draw, `pick` drives the Pareto sampling draw, and
`newPrompt` is the string `_reflect_and_propose` returns for the iteration
(its LLM call and regex extraction are external to the loop logic). -/

/-- A training / validation example: `ex['input']` and `ex['expected']`. -/
structure Example where
  input : String
  expected : Expected
deriving Repr, DecidableEq

/-- Oracles for the loop's stochastic and external effects. -/
structure Env where
  exec : ToastNeo4jPipeline → String → Except Unit Output
  minibatch : Nat → List Example
  pick : Nat → Nat
  newPrompt : Nat → String

/-- Optimizer parameters read by the loop (`minibatch_size` acts only
through the `minibatch` oracle; the merge step it gates is a no-op). -/
structure Config where
  minibatch_size : Nat
  merge_frequency : Nat
  max_candidates : Nat
deriving Repr, DecidableEq

/-- Embedding of `_evaluate_example` (lines 364-369): the one evaluation
path that catches an execution exception and scores the example 0. -/
def evaluate_example (env : Env) (p : ToastNeo4jPipeline) (ex : Example) : ℚ :=
  match env.exec p ex.input with
  | .ok out => evaluate_output out ex.expected
  | .error _ => 0

/-- A minibatch pass (lines 221-225 for the parent, 238-240 for the
mutant): each example is executed and scored in order, and an exception
propagates — there is no try/except around these loops. -/
def minibatch_scores (env : Env) (p : ToastNeo4jPipeline) : List Example → Except Unit (List ℚ)
  | [] => .ok []
  | ex :: rest =>
    match env.exec p ex.input with
    | .error e => .error e
    | .ok out =>
      match minibatch_scores env p rest with
      | .error e => .error e
      | .ok tailScores => .ok (evaluate_output out ex.expected :: tailScores)

/-- Mutable-state fields of `GEPAOptimizer` the loop threads. -/
structure OptState where
  pools : PoolState
  iteration : Nat
  rollouts : Nat
deriving Repr, DecidableEq

/-- Observations of one loop iteration, recorded for the theorems:
`evalsPerformed` counts the candidate-example evaluations the iteration
actually runs (`exec` calls: `|mb|` for the parent pass, `|mb|` for the
mutant pass, `|val|` more on acceptance). -/
structure StepInfo where
  parentIdx : Nat
  minibatchLen : Nat
  sBefore : List ℚ
  sAfter : List ℚ
  accepted : Bool
  valScores : List ℚ
  mutant : ToastNeo4jPipeline
  evalsPerformed : Nat
deriving Repr, DecidableEq

/-- One iteration of the `while self.rollouts_used < budget` body
(lines 213-255).  `Except.error` models an uncaught exception escaping the
iteration: a failing minibatch execution, an `IndexError` from stale pool
indices, a `KeyError` on the stage dict, or `iteration % 0` on an empty
stage sequence.  The merge step (lines 254-255, `_try_merge`) is a no-op in
the source and alters nothing. -/
def step (env : Env) (cfg : Config) (valData : List Example) (st : OptState) :
    Except Unit (OptState × StepInfo) :=
  let iter := st.iteration + 1
  let pidx := select_pareto_candidate st.pools.scores_matrix (env.pick iter)
  match st.pools.candidate_pool.get? pidx with
  | none => .error ()
  | some parent =>
    if parent.module_sequence.length = 0 then .error ()
    else
      let mname := parent.module_sequence.getD (iter % parent.module_sequence.length) ""
      let mb := env.minibatch iter
      match minibatch_scores env parent mb with
      | .error e => .error e
      | .ok sBefore =>
        let rollouts1 := st.rollouts + mb.length
        match lookupModule parent mname with
        | none => .error ()
        | some _old =>
          match get_ancestor_prompts st.pools pidx mname with
          | none => .error ()
          | some _anc =>
            let newCand := mutateCandidate parent mname (env.newPrompt iter)
            match minibatch_scores env newCand mb with
            | .error e => .error e
            | .ok sAfter =>
              if qmean sBefore < qmean sAfter then
                let valScores := valData.map (evaluate_example env newCand)
                let appended : PoolState :=
                  { candidate_pool := st.pools.candidate_pool ++ [newCand]
                    parent_indices := st.pools.parent_indices ++ [some pidx]
                    scores_matrix := st.pools.scores_matrix ++ [valScores] }
                let afterPrune :=
                  if cfg.max_candidates < appended.candidate_pool.length then
                    prune_candidates appended cfg.max_candidates
                  else appended
                .ok (⟨afterPrune, iter, rollouts1 + valData.length⟩,
                     ⟨pidx, mb.length, sBefore, sAfter, true, valScores, newCand,
                      2 * mb.length + valData.length⟩)
              else
                .ok (⟨st.pools, iter, rollouts1⟩,
                     ⟨pidx, mb.length, sBefore, sAfter, false, [], newCand, 2 * mb.length⟩)

/-- Seeding (lines 205-210): score the seed on every validation example
(through the catching evaluator) and set `rollouts_used = n_val`. -/
def seedState (env : Env) (seedPipe : ToastNeo4jPipeline) (valData : List Example) : OptState :=
  ⟨⟨[seedPipe], [none], [valData.map (evaluate_example env seedPipe)]⟩, 0, valData.length⟩

/-- The budget-checked loop, with fuel to make the recursion structural;
`none` means the fuel ran out while the budget check would have continued
the loop (the theorems always supply ample fuel). -/
def optimizeLoop (env : Env) (cfg : Config) (valData : List Example) (budget : Nat) :
    Nat → OptState → Option (Except Unit OptState)
  | 0, st => if st.rollouts < budget then none else some (.ok st)
  | fuel + 1, st =>
    if st.rollouts < budget then
      match step env cfg valData st with
      | .error e => some (.error e)
      | .ok (st2, _) => optimizeLoop env cfg valData budget fuel st2
    else some (.ok st)

/-- First index attaining the maximum, `np.argmax`. -/
def argmaxIdx (l : List ℚ) : Nat :=
  (List.range l.length).foldl (fun best i => if l.getD best 0 < l.getD i 0 then i else best) 0

/-- Embedding of `GEPAOptimizer.optimize`: seeding, the budget loop, and
the final `candidate_pool[argmax(mean(scores_matrix, axis=1))]` return
(lines 257-258); the final state is returned alongside the chosen
pipeline. -/
def optimize (env : Env) (cfg : Config) (valData : List Example) (budget : Nat)
    (seedPipe : ToastNeo4jPipeline) (fuel : Nat) :
    Option (Except Unit (OptState × ToastNeo4jPipeline)) :=
  match optimizeLoop env cfg valData budget fuel (seedState env seedPipe valData) with
  | none => none
  | some (.error e) => some (.error e)
  | some (.ok st) =>
    some (.ok (st,
      st.pools.candidate_pool.getD (argmaxIdx (st.pools.scores_matrix.map qmean)) seedPipe))

/-! Concrete instances used by the counterexamples and witnesses below. -/

/-- A pipeline with the single stage `"m"` holding the given prompt. -/
def onePipe (pr : String) : ToastNeo4jPipeline := ⟨[("m", ⟨"m", pr, 1⟩)], ["m"]⟩

/-- A three-candidate pool whose second and third members point at their
predecessors, with distinct mean scores 1, 2, 9. -/
def bugPool : PoolState :=
  ⟨[onePipe "a", onePipe "b", onePipe "c"],
   [none, some 0, some 1],
   [[1], [2], [9]]⟩

/-- A gold standard expecting the single node label "A". -/
def exA : Expected := ⟨some ["A"], none, none⟩

/-- An output extracting exactly the expected label (scores 1). -/
def goodOut : Output := ⟨some [some "A"], none, none, none⟩

/-- An output extracting nothing (scores 0). -/
def badOut : Output := ⟨some [], none, none, none⟩

/-- Default optimizer parameters (minibatch 3 is irrelevant: the minibatch
oracle fixes the draw). -/
def cfg0 : Config := ⟨1, 5, 20⟩

/-- The seed pipeline of the loop scenarios. -/
def seed0 : ToastNeo4jPipeline := onePipe "p0"

/-- A one-example validation set. -/
def val1 : List Example := [⟨"v", exA⟩]

/-- A two-example validation set. -/
def val2 : List Example := [⟨"v", exA⟩, ⟨"w", exA⟩]

/-- Environment whose pipeline execution raises on the minibatch input
`"bad"` and succeeds on the validation input. -/
def envRaise : Env :=
  { exec := fun _ s => if s = "bad" then .error () else .ok goodOut
    minibatch := fun _ => [⟨"bad", exA⟩]
    pick := fun _ => 0
    newPrompt := fun _ => "p1" }

/-- Environment whose execution always succeeds with the same output, so
every mutant is rejected (equal means). -/
def envFlat : Env :=
  { exec := fun _ _ => .ok goodOut
    minibatch := fun _ => [⟨"t", exA⟩]
    pick := fun _ => 0
    newPrompt := fun _ => "p1" }

/-- Environment where only the mutated prompt `"p1"` makes stage `"m"`
produce the good output: the first mutant is strictly better and accepted. -/
def envImprove : Env :=
  { exec := fun p _ =>
      if (lookupModule p "m").map ToastModule.prompt = some "p1" then .ok goodOut else .ok badOut
    minibatch := fun _ => [⟨"t", exA⟩]
    pick := fun _ => 0
    newPrompt := fun _ => "p1" }

/-- The accepted mutant of `seed0` in `envImprove`. -/
def mutant1 : ToastNeo4jPipeline := mutateCandidate seed0 "m" "p1"

/-- The state after seeding in `envImprove` (seed scores 0 on `val1`). -/
def stImprove0 : OptState := seedState envImprove seed0 val1

/-- The state after the first (accepting) iteration in `envImprove`. -/
def stImprove1 : OptState := ⟨⟨[seed0, mutant1], [none, some 0], [[0], [1]]⟩, 1, 3⟩

/-- The iteration record of that accepting step. -/
def infoImprove : StepInfo := ⟨0, 1, [0], [1], true, [1], mutant1, 3⟩

/-- Projection reading the final iteration count out of an optimize run. -/
def iterationsOf : Option (Except Unit (OptState × ToastNeo4jPipeline)) → Option Nat
  | some (.ok (st, _)) => some st.iteration
  | _ => none

end Gepa

/-! Helper lemmas. -/

namespace Gepa

theorem exists_argmaxQ {α : Type} (f : α → ℚ) (l : List α) (h : l ≠ []) :
    ∃ a ∈ l, ∀ b ∈ l, f b ≤ f a := by
  induction l with
  | nil => exact absurd rfl h
  | cons x xs ih =>
    rcases eq_or_ne xs [] with hx | hx
    · subst hx
      refine ⟨x, List.mem_cons_self x [], ?_⟩
      intro b hb
      rw [List.mem_singleton] at hb
      subst hb
      exact le_refl _
    · obtain ⟨a, ha, hmax⟩ := ih hx
      by_cases hfa : f x ≤ f a
      · refine ⟨a, List.mem_cons_of_mem x ha, ?_⟩
        intro b hb
        rcases List.mem_cons.mp hb with rfl | hb2
        · exact hfa
        · exact hmax b hb2
      · push_neg at hfa
        refine ⟨x, List.mem_cons_self x xs, ?_⟩
        intro b hb
        rcases List.mem_cons.mp hb with rfl | hb2
        · exact le_refl _
        · exact le_trans (hmax b hb2) (le_of_lt hfa)

theorem rowSum_lt_of_dominates (M : List (List ℚ)) (a b : Nat) (h : dominates M a b = true) :
    rowSum M b < rowSum M a := by
  unfold dominates at h
  rw [Bool.and_eq_true] at h
  obtain ⟨hall, hany⟩ := h
  rw [List.all_eq_true] at hall
  rw [List.any_eq_true] at hany
  obtain ⟨k, hk, hklt⟩ := hany
  refine Finset.sum_lt_sum ?_ ?_
  · intro i hi
    exact of_decide_eq_true (hall i (List.mem_range.mpr (Finset.mem_range.mp hi)))
  · exact ⟨k, Finset.mem_range.mpr (List.mem_range.mp hk), of_decide_eq_true hklt⟩

theorem paretoSet_ne_nil (M : List (List ℚ)) (hr : 1 ≤ M.length) (hc : 1 ≤ ncolsOf M) :
    paretoSet M ≠ [] := by
  have hcol : columnOf M 0 ≠ [] := by
    unfold columnOf
    simp only [ne_eq, List.map_eq_nil_iff]
    intro h
    rw [h] at hr
    simp at hr
  obtain ⟨m, hm⟩ : ∃ m, (columnOf M 0).max? = some m := by
    cases hmax : (columnOf M 0).max? with
    | none => exact absurd (List.max?_eq_none_iff.mp hmax) hcol
    | some m => exact ⟨m, rfl⟩
  have hmem : m ∈ columnOf M 0 := List.max?_mem max_choice hm
  obtain ⟨i, hi, hval⟩ := List.getElem_of_mem hmem
  have hilen : i < M.length := by
    have h2 := hi
    rwa [columnOf, List.length_map] at h2
  have hentry : entry M i 0 = m := by
    rw [← hval]
    unfold columnOf entry
    rw [List.getElem_map]
    rw [List.getD_eq_getElem M [] hilen]
  have hbest : i ∈ bestIndices M 0 := by
    unfold bestIndices
    rw [hm]
    rw [List.mem_filter]
    exact ⟨List.mem_range.mpr hilen, by rw [beq_iff_eq]; exact hentry⟩
  have hps : i ∈ paretoSet M := by
    unfold paretoSet
    rw [List.mem_filter]
    refine ⟨List.mem_range.mpr hilen, ?_⟩
    rw [List.any_eq_true]
    refine ⟨0, List.mem_range.mpr hc, ?_⟩
    simpa using hbest
  exact List.ne_nil_of_mem hps

theorem nonDominated_ne_nil (M : List (List ℚ)) (hr : 1 ≤ M.length) (hc : 1 ≤ ncolsOf M) :
    nonDominated M ≠ [] := by
  obtain ⟨a, ha, hmax⟩ := exists_argmaxQ (rowSum M) (paretoSet M) (paretoSet_ne_nil M hr hc)
  apply List.ne_nil_of_mem (a := a)
  unfold nonDominated
  rw [List.mem_filter]
  refine ⟨ha, ?_⟩
  rw [Bool.not_eq_eq_eq_not, Bool.not_true, List.any_eq_false]
  intro j hj
  intro hca
  rw [Bool.and_eq_true] at hca
  exact absurd (hmax j hj) (not_le.mpr (rowSum_lt_of_dominates M j a hca.2))

theorem ratioScore_mem (a b : Nat) (hab : a ≤ b) :
    0 ≤ ratioScore a b ∧ ratioScore a b ≤ 1 := by
  unfold ratioScore
  split_ifs with hb
  · constructor
    · positivity
    · rw [div_le_one (by exact_mod_cast hb)]
      exact_mod_cast hab
  · norm_num

theorem f1_formula_mem (p r : ℚ) (hp0 : 0 ≤ p) (hp1 : p ≤ 1) (hr0 : 0 ≤ r) (hr1 : r ≤ 1) :
    0 ≤ (if 0 < p + r then 2 * (p * r) / (p + r) else 0) ∧
    (if 0 < p + r then 2 * (p * r) / (p + r) else 0) ≤ 1 := by
  split_ifs with hpr
  · constructor
    · positivity
    · rw [div_le_one hpr]
      have h1 : p * r ≤ r := mul_le_of_le_one_left hr0 hp1
      have h2 : p * r ≤ p := mul_le_of_le_one_right hp0 hr1
      linarith
  · norm_num

theorem node_f1_mem (ns : List (Option String)) (ens : List String) :
    0 ≤ node_f1 ns ens ∧ node_f1 ns ens ≤ 1 := by
  have hp := ratioScore_mem ((ns.toFinset ∩ (ens.map some).toFinset).card) ns.toFinset.card
    (Finset.card_le_card Finset.inter_subset_left)
  have hr := ratioScore_mem ((ns.toFinset ∩ (ens.map some).toFinset).card)
    ((ens.map some).toFinset).card (Finset.card_le_card Finset.inter_subset_right)
  exact f1_formula_mem _ _ hp.1 hp.2 hr.1 hr.2

theorem rel_recall_mem (rs ers : List (Option String)) :
    0 ≤ rel_recall rs ers ∧ rel_recall rs ers ≤ 1 :=
  ratioScore_mem _ _ (Finset.card_le_card Finset.inter_subset_right)

theorem alert_recall_mem (als : List (Option String)) (kps : List String) :
    0 ≤ alert_recall als kps ∧ alert_recall als kps ≤ 1 := by
  simp only [alert_recall]
  split_ifs with hk
  · exact ratioScore_mem _ _ (Finset.card_le_card Finset.inter_subset_right)
  · norm_num

theorem cypher_score_mem (qs : List String) :
    0 ≤ cypher_score qs ∧ cypher_score qs ≤ 1 := by
  unfold cypher_score
  split_ifs <;> norm_num

theorem subScores_mem (o : Output) (e : Expected) :
    ∀ x ∈ subScores o e, 0 ≤ x ∧ x ≤ 1 := by
  intro x hx
  unfold subScores at hx
  simp only [List.mem_append] at hx
  rcases hx with ((hx | hx) | hx) | hx
  · revert hx
    cases o.nodes <;> cases e.expected_nodes <;> intro hx <;> simp at hx
    subst hx
    exact node_f1_mem _ _
  · revert hx
    cases o.relationships <;> cases e.expected_relationships <;> intro hx <;> simp at hx
    subst hx
    exact rel_recall_mem _ _
  · revert hx
    cases o.alerts <;> cases e.known_patterns <;> intro hx <;> simp at hx
    subst hx
    exact alert_recall_mem _ _
  · revert hx
    cases o.cypher_queries <;> intro hx <;> simp at hx
    subst hx
    exact cypher_score_mem _

theorem qmean_mem (l : List ℚ) (h : ∀ x ∈ l, 0 ≤ x ∧ x ≤ 1) :
    0 ≤ qmean l ∧ qmean l ≤ 1 := by
  rcases eq_or_ne l [] with rfl | hne
  · norm_num [qmean]
  · have hlen : 0 < (l.length : ℚ) := by
      exact_mod_cast List.length_pos.mpr hne
    constructor
    · exact div_nonneg (List.sum_nonneg (fun x hx => (h x hx).1)) (le_of_lt hlen)
    · rw [qmean, div_le_one hlen]
      calc l.sum ≤ l.length • (1 : ℚ) := List.sum_le_card_nsmul l 1 (fun x hx => (h x hx).2)
      _ = (l.length : ℚ) := by simp

end Gepa

namespace Gepa

theorem eval_bad : evaluate_output badOut exA = 0 := by
  norm_num [evaluate_output, subScores, qmean, badOut, exA, node_f1, ratioScore]

theorem eval_good : evaluate_output goodOut exA = 1 := by
  norm_num [evaluate_output, subScores, qmean, goodOut, exA, node_f1, ratioScore]

theorem mbs_seed : minibatch_scores envImprove seed0 [⟨"t", exA⟩] = .ok [0] := by
  have h : envImprove.exec seed0 "t" = .ok badOut := rfl
  simp only [minibatch_scores, h, eval_bad]

theorem mbs_mut : minibatch_scores envImprove mutant1 [⟨"t", exA⟩] = .ok [1] := by
  have h : envImprove.exec mutant1 "t" = .ok goodOut := rfl
  simp only [minibatch_scores, h, eval_good]

theorem seedState_improve :
    seedState envImprove seed0 val1 = ⟨⟨[seed0], [none], [[0]]⟩, 0, 1⟩ := by
  have h : envImprove.exec seed0 "v" = .ok badOut := rfl
  simp only [seedState, val1, List.map, evaluate_example, h, eval_bad, List.length]

theorem step_improve :
    step envImprove cfg0 val1 ⟨⟨[seed0], [none], [[0]]⟩, 0, 1⟩ = .ok (stImprove1, infoImprove) := by
  have hpick : envImprove.pick 1 = 0 := rfl
  have hmb : envImprove.minibatch 1 = [⟨"t", exA⟩] := rfl
  have hnp : envImprove.newPrompt 1 = "p1" := rfl
  have hget : ([seed0] : List ToastNeo4jPipeline).get? 0 = some seed0 := rfl
  have hlen : seed0.module_sequence.length = 1 := rfl
  have hseq0 : seed0.module_sequence = ["m"] := rfl
  have hsel : select_pareto_candidate [[(0:ℚ)]] 0 = 0 := by decide
  have hanc : get_ancestor_prompts ⟨[seed0], [none], [[0]]⟩ 0 "m" = some ["p0"] := by decide
  have hlook : lookupModule seed0 "m" = some ⟨"m", "p0", 1⟩ := rfl
  have hmut : mutateCandidate seed0 "m" "p1" = mutant1 := rfl
  have hq : qmean [(0:ℚ)] < qmean [1] := by norm_num [qmean]
  have hval : evaluate_example envImprove mutant1 ⟨"v", exA⟩ = 1 := by
    have h : envImprove.exec mutant1 "v" = .ok goodOut := rfl
    simp only [evaluate_example, h, eval_good]
  norm_num [step, hpick, hmb, hnp, hget, hlen, hseq0, hsel, hanc, hlook, hmut, mbs_seed, mbs_mut,
    hq, hval, cfg0, stImprove1, infoImprove, val1]

theorem seedState_raise :
    seedState envRaise seed0 val1 = ⟨⟨[seed0], [none], [[1]]⟩, 0, 1⟩ := by
  have h : envRaise.exec seed0 "v" = .ok goodOut := rfl
  simp only [seedState, val1, List.map, evaluate_example, h, eval_good, List.length]

theorem seedState_flat :
    seedState envFlat seed0 val2 = ⟨⟨[seed0], [none], [[1, 1]]⟩, 0, 2⟩ := by
  have h1 : envFlat.exec seed0 "v" = .ok goodOut := rfl
  have h2 : envFlat.exec seed0 "w" = .ok goodOut := rfl
  simp only [seedState, val2, List.map, evaluate_example, h1, h2, eval_good, List.length]

theorem step_flat (k r : Nat) :
    step envFlat cfg0 val2 ⟨⟨[seed0], [none], [[1, 1]]⟩, k, r⟩ =
      .ok (⟨⟨[seed0], [none], [[1, 1]]⟩, k + 1, r + 1⟩,
        ⟨0, 1, [1], [1], false, [], mutateCandidate seed0 "m" "p1", 2⟩) := by
  have hpick : envFlat.pick (k + 1) = 0 := rfl
  have hmb : envFlat.minibatch (k + 1) = [⟨"t", exA⟩] := rfl
  have hnp : envFlat.newPrompt (k + 1) = "p1" := rfl
  have hget : ([seed0] : List ToastNeo4jPipeline).get? 0 = some seed0 := rfl
  have hseq0 : seed0.module_sequence = ["m"] := rfl
  have hsel : select_pareto_candidate [[(1:ℚ), 1]] 0 = 0 := by decide
  have hanc : get_ancestor_prompts ⟨[seed0], [none], [[1, 1]]⟩ 0 "m" = some ["p0"] := by decide
  have hlook : lookupModule seed0 "m" = some ⟨"m", "p0", 1⟩ := rfl
  have hmbs1 : minibatch_scores envFlat seed0 [⟨"t", exA⟩] = .ok [1] := by
    have h : envFlat.exec seed0 "t" = .ok goodOut := rfl
    simp only [minibatch_scores, h, eval_good]
  have hmbs2 : minibatch_scores envFlat (mutateCandidate seed0 "m" "p1") [⟨"t", exA⟩] =
      .ok [1] := by
    have h : envFlat.exec (mutateCandidate seed0 "m" "p1") "t" = .ok goodOut := rfl
    simp only [minibatch_scores, h, eval_good]
  have hq : ¬ (qmean [(1:ℚ)] < qmean [1]) := lt_irrefl _
  norm_num [step, hpick, hmb, hnp, hget, hseq0, hsel, hanc, hlook, hmbs1, hmbs2, cfg0, hq,
    Nat.mod_one]

theorem optimizeLoop_done (env : Env) (cfg : Config) (valData : List Example) (budget fuel : Nat)
    (st : OptState) (h : ¬ st.rollouts < budget) :
    optimizeLoop env cfg valData budget fuel st = some (.ok st) := by
  cases fuel <;> simp [optimizeLoop, h]

theorem optimizeLoop_succ (env : Env) (cfg : Config) (valData : List Example) (budget fuel : Nat)
    (st : OptState) (h : st.rollouts < budget) (st2 : OptState) (info : StepInfo)
    (hstep : step env cfg valData st = .ok (st2, info)) :
    optimizeLoop env cfg valData budget (fuel + 1) st =
      optimizeLoop env cfg valData budget fuel st2 := by
  simp only [optimizeLoop]
  rw [if_pos h, hstep]

theorem argmaxIdx_pair (a b : ℚ) : argmaxIdx [a, b] = if a < b then 1 else 0 := by
  show List.foldl _ 0 (List.range 2) = _
  rw [show List.range 2 = [0, 1] from rfl]
  simp only [List.foldl_cons, List.foldl_nil, List.getD]
  norm_num

theorem step_ok_spec (env : Env) (cfg : Config) (valData : List Example) (st st2 : OptState)
    (info : StepInfo) (h : step env cfg valData st = .ok (st2, info)) :
    st2.iteration = st.iteration + 1 ∧
    info.minibatchLen = (env.minibatch (st.iteration + 1)).length ∧
    st2.rollouts = st.rollouts + info.minibatchLen +
      (if info.accepted = true then valData.length else 0) ∧
    info.evalsPerformed = 2 * info.minibatchLen +
      (if info.accepted = true then valData.length else 0) ∧
    (info.accepted = true ↔ qmean info.sBefore < qmean info.sAfter) ∧
    (info.accepted = false → st2.pools = st.pools) ∧
    (info.accepted = true →
      info.valScores = valData.map (evaluate_example env info.mutant) ∧
      (st.pools.candidate_pool.length + 1 ≤ cfg.max_candidates →
        st2.pools = ⟨st.pools.candidate_pool ++ [info.mutant],
                     st.pools.parent_indices ++ [some info.parentIdx],
                     st.pools.scores_matrix ++ [info.valScores]⟩)) := by
  unfold step at h
  simp only [] at h
  split at h
  · cases h
  next parent hparent =>
    split at h
    · cases h
    split at h
    · cases h
    next sBefore hsb =>
      split at h
      · cases h
      next old hold =>
        split at h
        · cases h
        next anc hanc =>
          split at h
          · cases h
          next sAfter hsa =>
            split at h
            next hacc =>
              rw [Except.ok.injEq, Prod.mk.injEq] at h
              obtain ⟨h1, h2⟩ := h
              subst h1; subst h2
              refine ⟨rfl, rfl, by simp, by simp, by simp [hacc], by simp, ?_⟩
              intro _
              refine ⟨rfl, ?_⟩
              intro hlen
              show (if cfg.max_candidates < (st.pools.candidate_pool ++ [_]).length
                then _ else _) = _
              rw [if_neg (by
                simp only [List.length_append, List.length_cons, List.length_nil]
                omega)]
            next hacc =>
              rw [Except.ok.injEq, Prod.mk.injEq] at h
              obtain ⟨h1, h2⟩ := h
              subst h1; subst h2
              exact ⟨rfl, rfl, by simp, by simp, by simp [hacc], fun _ => rfl, by simp⟩

theorem find_key_map (l : List (String × ToastModule))
    (u : String × ToastModule → String × ToastModule)
    (hk : ∀ kv, (u kv).fst = kv.fst) (s : String) :
    (l.map u).find? (fun kv => kv.fst == s) = (l.find? (fun kv => kv.fst == s)).map u := by
  induction l with
  | nil => rfl
  | cons kv rest ih =>
    rw [List.map_cons, List.find?_cons, List.find?_cons]
    have hk2 : ((u kv).fst == s) = (kv.fst == s) := by rw [hk kv]
    rw [hk2]
    by_cases h : (kv.fst == s) = true
    · rw [h]
      rfl
    · rw [Bool.not_eq_true] at h
      rw [h]
      exact ih

theorem fallbackText_ne_empty (msgs : List Message) : fallbackText msgs ≠ "" := by
  intro h
  have h1 : (fallbackText msgs).length = 0 := by rw [h]; rfl
  unfold fallbackText at h1
  rw [String.length_append, String.length_append] at h1
  have h2 : ("```\n# REFINED PROMPT (fallback)\n" : String).length = 32 := rfl
  rw [h2] at h1
  omega

end Gepa

namespace Gepa

theorem optimizeLoop_go (env : Env) (cfg : Config) (valData : List Example) (budget fuel f : Nat)
    (st st2 : OptState) (info : StepInfo) (hf : fuel = f + 1) (h : st.rollouts < budget)
    (hstep : step env cfg valData st = .ok (st2, info)) :
    optimizeLoop env cfg valData budget fuel st = optimizeLoop env cfg valData budget f st2 := by
  subst hf
  simp only [optimizeLoop]
  rw [if_pos h, hstep]

theorem optimizeLoop_error (env : Env) (cfg : Config) (valData : List Example) (budget fuel f : Nat)
    (st : OptState) (hf : fuel = f + 1) (h : st.rollouts < budget)
    (hstep : step env cfg valData st = .error ()) :
    optimizeLoop env cfg valData budget fuel st = some (.error ()) := by
  subst hf
  simp only [optimizeLoop]
  rw [if_pos h, hstep]

/-- C1 (code_bug): `_prune_candidates` filters and reorders `parent_indices`
by the kept positions but never renumbers the stored values to the new
candidate indices.  On the concrete three-candidate pool: pruning to one
candidate leaves `parent_indices = [some 1]`, and the subsequent ancestors
walk indexes position 1 of a one-element pool — an uncaught `IndexError`
(`none` here); pruning to two candidates leaves `[some 0, some 1]`, so the
walk from the survivor at index 0 reports the survivor itself five times as
its own ancestor chain instead of its real parent. -/
theorem prune_stale_parent_indices :
    (prune_candidates bugPool 1).parent_indices = [some 1] ∧
    get_ancestor_prompts (prune_candidates bugPool 1) 0 "m" = none ∧
    (prune_candidates bugPool 2).parent_indices = [some 0, some 1] ∧
    get_ancestor_prompts (prune_candidates bugPool 2) 0 "m" =
      some ["b", "b", "b", "b", "b"] := by
  have havg : bugPool.scores_matrix.map qmean = [1, 2, 9] := by
    norm_num [bugPool, qmean]
  have h1 : prune_candidates bugPool 1 = ⟨[onePipe "c"], [some 1], [[9]]⟩ := by
    simp only [prune_candidates, havg]
    decide
  have h2 : prune_candidates bugPool 2 =
      ⟨[onePipe "b", onePipe "c"], [some 0, some 1], [[2], [9]]⟩ := by
    simp only [prune_candidates, havg]
    decide
  rw [h1, h2]
  refine ⟨rfl, by decide, rfl, by decide⟩

/-- C2 counterexample: with an environment whose pipeline execution raises
on the minibatch example, the whole `optimize` call returns the raised
exception — the iteration does not continue with score 0, although the
catching evaluator (used only for validation scoring) would have produced
0 for that same example. -/
theorem minibatch_exception_aborts_counterexample :
    optimize envRaise cfg0 val1 2 seed0 1 = some (.error ()) ∧
    evaluate_example envRaise seed0 ⟨"bad", exA⟩ = 0 := by
  constructor
  · have hstep : step envRaise cfg0 val1 ⟨⟨[seed0], [none], [[1]]⟩, 0, 1⟩ = .error () := by
      have hpick : envRaise.pick 1 = 0 := rfl
      have hmb : envRaise.minibatch 1 = [⟨"bad", exA⟩] := rfl
      have hget : ([seed0] : List ToastNeo4jPipeline).get? 0 = some seed0 := rfl
      have hseq0 : seed0.module_sequence = ["m"] := rfl
      have hsel : select_pareto_candidate [[(1:ℚ)]] 0 = 0 := by decide
      have hmbs : minibatch_scores envRaise seed0 [⟨"bad", exA⟩] = .error () := by
        have h : envRaise.exec seed0 "bad" = .error () := rfl
        simp only [minibatch_scores, h]
      norm_num [step, hpick, hmb, hget, hseq0, hsel, hmbs]
    have hl := optimizeLoop_error envRaise cfg0 val1 2 1 0 ⟨⟨[seed0], [none], [[1]]⟩, 0, 1⟩
      (by norm_num) (by norm_num) hstep
    unfold optimize
    rw [seedState_raise, hl]
  · rfl

/-- C2 (corrected): the claim attributes exception recovery to the
minibatch passes, but only `_evaluate_example` — used for validation-set
scoring — catches: a validation example whose execution raises scores 0,
while an exception on any example of a minibatch pass (parent or mutant,
which call `execute_with_traces` bare) propagates out of the pass and
aborts the iteration. -/
theorem failure_semantics_amended (env : Env) (p : ToastNeo4jPipeline) (ex : Example)
    (mb : List Example) (hmem : ex ∈ mb) (herr : env.exec p ex.input = .error ()) :
    evaluate_example env p ex = 0 ∧ minibatch_scores env p mb = .error () := by
  constructor
  · unfold evaluate_example
    rw [herr]
  · induction mb with
    | nil => cases hmem
    | cons y ys ih =>
      rcases List.mem_cons.mp hmem with rfl | hmem2
      · simp only [minibatch_scores, herr]
      · cases hy : env.exec p y.input with
        | error e => simp only [minibatch_scores, hy]
        | ok out =>
          simp only [minibatch_scores, hy, ih hmem2]

/-- C2 witness: the amended failure semantics at the concrete raising
environment. -/
theorem failure_semantics_amended_witness :
    evaluate_example envRaise seed0 ⟨"bad", exA⟩ = 0 ∧
    minibatch_scores envRaise seed0 [⟨"bad", exA⟩] = .error () :=
  failure_semantics_amended envRaise seed0 ⟨"bad", exA⟩ [⟨"bad", exA⟩] (by simp) rfl

end Gepa

namespace Gepa

/-- C3 counterexample: in the claimed scenario (one-stage seed, minibatch
size 1, budget = 2 × |validation|) with a two-example validation set and
every mutant rejected, the loop performs two mutation attempts, not
exactly one — the single-attempt behaviour depends on the accept decision. -/
theorem single_attempt_counterexample :
    iterationsOf (optimize envFlat cfg0 val2 4 seed0 3) = some 2 := by
  have h1 := optimizeLoop_go envFlat cfg0 val2 4 3 2 ⟨⟨[seed0], [none], [[1, 1]]⟩, 0, 2⟩
    _ _ (by norm_num) (by norm_num) (step_flat 0 2)
  have h2 := optimizeLoop_go envFlat cfg0 val2 4 2 1 ⟨⟨[seed0], [none], [[1, 1]]⟩, 1, 3⟩
    _ _ (by norm_num) (by norm_num) (step_flat 1 3)
  have h3 := optimizeLoop_done envFlat cfg0 val2 4 1 ⟨⟨[seed0], [none], [[1, 1]]⟩, 2, 4⟩
    (by norm_num)
  unfold optimize
  rw [seedState_flat, h1, h2, h3]
  rfl

/-- C3 (corrected): in the scenario with budget = 2 × |validation| and
minibatch size 1, the loop halts after exactly one mutation attempt
provided that attempt is accepted (a rejected attempt consumes only one
budget unit, so the loop continues); the run then returns whichever of the
seed and the single accepted mutant has the higher mean validation score
(the seed on ties, as `np.argmax` takes the first maximum). -/
theorem gepa_one_attempt_on_accept (env : Env) (cfg : Config) (valData : List Example)
    (seedPipe : ToastNeo4jPipeline) (st2 : OptState) (info : StepInfo) (fuel : Nat)
    (hnv : 1 ≤ valData.length)
    (hmb : info.minibatchLen = 1)
    (hstep : step env cfg valData (seedState env seedPipe valData) = .ok (st2, info))
    (hacc : info.accepted = true)
    (hmax : 2 ≤ cfg.max_candidates) :
    optimize env cfg valData (2 * valData.length) seedPipe (fuel + 1) =
      some (.ok (st2,
        if qmean (valData.map (evaluate_example env seedPipe)) < qmean info.valScores
        then info.mutant else seedPipe)) ∧
    st2.iteration = 1 := by
  obtain ⟨hiter, hmlen, hroll, hevals, hiff, hrej, haccs⟩ :=
    step_ok_spec env cfg valData (seedState env seedPipe valData) st2 info hstep
  obtain ⟨hval, hpools⟩ := haccs hacc
  have hp2 := hpools (by
    show (1 : Nat) + 1 ≤ cfg.max_candidates
    omega)
  simp only [seedState, List.singleton_append] at hp2
  have hseedroll : (seedState env seedPipe valData).rollouts = valData.length := rfl
  have hroll2 : st2.rollouts = 2 * valData.length + 1 := by
    rw [hroll, hseedroll, hmb, hacc]
    simp
    omega
  have hl1 : optimizeLoop env cfg valData (2 * valData.length) (fuel + 1)
      (seedState env seedPipe valData) = some (.ok st2) := by
    simp only [optimizeLoop]
    rw [if_pos (by rw [hseedroll]; omega)]
    rw [hstep]
    exact optimizeLoop_done _ _ _ _ _ _ (by rw [hroll2]; omega)
  constructor
  · unfold optimize
    rw [hl1]
    show Option.some (Except.ok (st2, st2.pools.candidate_pool.getD
      (argmaxIdx (st2.pools.scores_matrix.map qmean)) seedPipe)) = _
    rw [hp2]
    dsimp only
    try simp only [List.cons_append, List.nil_append, List.map_cons, List.map_nil]
    rw [argmaxIdx_pair]
    by_cases hc : qmean (valData.map (evaluate_example env seedPipe)) < qmean info.valScores
    · rw [if_pos hc, if_pos hc]; rfl
    · rw [if_neg hc, if_neg hc]; rfl
  · rw [hiter]; rfl

/-- C3 witness: the accepting scenario in the concrete improving
environment — one attempt, then budget exhaustion, returning the mutant. -/
theorem gepa_one_attempt_witness :
    optimize envImprove cfg0 val1 2 seed0 1 = some (.ok (stImprove1, mutant1)) ∧
    stImprove1.iteration = 1 := by
  have h := gepa_one_attempt_on_accept envImprove cfg0 val1 seed0 stImprove1 infoImprove 0
    (by norm_num [val1]) rfl (by rw [seedState_improve]; exact step_improve) rfl
    (by norm_num [cfg0])
  have hseed : val1.map (evaluate_example envImprove seed0) = [0] := by
    have hex : envImprove.exec seed0 "v" = .ok badOut := rfl
    simp only [val1, List.map, evaluate_example, hex, eval_bad]
  rw [hseed] at h
  have hc : qmean [(0:ℚ)] < qmean (infoImprove.valScores) := by
    show qmean [(0:ℚ)] < qmean [1]
    norm_num [qmean]
  rw [if_pos hc] at h
  exact h

/-- C4 counterexample: a rejected iteration performs two candidate-example
evaluations (parent pass and mutant pass on the one-example minibatch) but
the rollout counter rises by one only — the mutant pass consumes no budget
units, contradicting one-unit-per-evaluation accounting. -/
theorem budget_unit_counterexample :
    (step envFlat cfg0 val2 ⟨⟨[seed0], [none], [[1, 1]]⟩, 0, 2⟩).toOption.map
      (fun pr => (pr.2.evalsPerformed, pr.1.rollouts)) = some (2, 3) := by
  rw [step_flat 0 2]
  rfl

/-- C4 (corrected): per iteration the rollout counter rises by exactly
`|minibatch|` (the parent pass) plus `|validation|` on acceptance, and
never decreases; the mutant minibatch pass is not charged although it
performs `|minibatch|` further evaluations, so the counter undercounts the
evaluations performed (which are `2·|minibatch|` plus the validation pass). -/
theorem rollout_budget_accounting (env : Env) (cfg : Config) (valData : List Example)
    (st st2 : OptState) (info : StepInfo)
    (h : step env cfg valData st = .ok (st2, info)) :
    st2.rollouts = st.rollouts + info.minibatchLen +
      (if info.accepted = true then valData.length else 0) ∧
    st.rollouts ≤ st2.rollouts ∧
    info.evalsPerformed = 2 * info.minibatchLen +
      (if info.accepted = true then valData.length else 0) ∧
    info.minibatchLen = (env.minibatch (st.iteration + 1)).length := by
  obtain ⟨-, hmlen, hroll, hevals, -, -, -⟩ := step_ok_spec env cfg valData st st2 info h
  refine ⟨hroll, ?_, hevals, hmlen⟩
  rw [hroll]
  split_ifs <;> omega

/-- C4 witness: the accounting at the concrete accepting step. -/
theorem rollout_budget_accounting_witness :
    stImprove1.rollouts = 1 + infoImprove.minibatchLen +
      (if infoImprove.accepted = true then val1.length else 0) ∧
    1 ≤ stImprove1.rollouts ∧
    infoImprove.evalsPerformed = 2 * infoImprove.minibatchLen +
      (if infoImprove.accepted = true then val1.length else 0) ∧
    infoImprove.minibatchLen = (envImprove.minibatch 1).length := by
  have h := rollout_budget_accounting envImprove cfg0 val1
    ⟨⟨[seed0], [none], [[0]]⟩, 0, 1⟩ stImprove1 infoImprove step_improve
  exact h

/-- C5 (confirmed): an iteration appends the mutant if and only if its
minibatch mean strictly exceeds the parent mean on the same minibatch; a
rejected mutant leaves the candidate pool, parent-index list and score
matrix unchanged, and an accepted one extends all three in parallel
(shown here below the pruning threshold, where the append is the final
state). -/
theorem accept_iff_strict_mean_improvement (env : Env) (cfg : Config) (valData : List Example)
    (st st2 : OptState) (info : StepInfo)
    (h : step env cfg valData st = .ok (st2, info)) :
    (info.accepted = true ↔ qmean info.sBefore < qmean info.sAfter) ∧
    (info.accepted = false → st2.pools = st.pools) ∧
    (info.accepted = true → st.pools.candidate_pool.length + 1 ≤ cfg.max_candidates →
      st2.pools = ⟨st.pools.candidate_pool ++ [info.mutant],
                   st.pools.parent_indices ++ [some info.parentIdx],
                   st.pools.scores_matrix ++ [info.valScores]⟩) := by
  obtain ⟨-, -, -, -, hiff, hrej, hacc⟩ := step_ok_spec env cfg valData st st2 info h
  exact ⟨hiff, hrej, fun ha hl => (hacc ha).2 hl⟩

/-- C5 witness: acceptance condition and append shape at the concrete
accepting step. -/
theorem accept_iff_witness :
    (infoImprove.accepted = true ↔ qmean infoImprove.sBefore < qmean infoImprove.sAfter) ∧
    stImprove1.pools = ⟨[seed0] ++ [infoImprove.mutant], [none] ++ [some infoImprove.parentIdx],
      [[0]] ++ [infoImprove.valScores]⟩ := by
  have h := accept_iff_strict_mean_improvement envImprove cfg0 val1
    ⟨⟨[seed0], [none], [[0]]⟩, 0, 1⟩ stImprove1 infoImprove step_improve
  exact ⟨h.1, h.2.2 rfl (by norm_num [cfg0])⟩

end Gepa

namespace Gepa

/-- C6 (confirmed): whenever the score matrix is non-degenerate (at least
one row and one column), the non-dominated frontier computed by the
selector is non-empty; when the matrix is empty or degenerate (zero size)
or the frontier comes out empty, the selector deterministically returns
index 0. -/
theorem pareto_selector_frontier (M : List (List ℚ)) (pick : Nat) :
    (1 ≤ M.length → 1 ≤ ncolsOf M → nonDominated M ≠ []) ∧
    (M.length * ncolsOf M = 0 → select_pareto_candidate M pick = 0) ∧
    (nonDominated M = [] → select_pareto_candidate M pick = 0) := by
  refine ⟨fun hr hc => nonDominated_ne_nil M hr hc, fun h => ?_, fun h => ?_⟩
  · unfold select_pareto_candidate
    rw [if_pos h]
  · simp [select_pareto_candidate, h]

/-- C6 witness: a one-by-one matrix has a non-empty frontier, and the
empty matrix selects index 0. -/
theorem pareto_selector_frontier_witness :
    nonDominated [[(1:ℚ)]] ≠ [] ∧ select_pareto_candidate ([] : List (List ℚ)) 7 = 0 :=
  ⟨(pareto_selector_frontier [[(1:ℚ)]] 0).1 (by decide) (by decide),
   (pareto_selector_frontier [] 7).2.1 (by decide)⟩

/-- C10 (confirmed): every member of the non-dominated list belongs to at
least one per-column best set, so its sampling frequency is at least 1 and
the frequency sum over a non-empty frontier is positive — the
`probs is None` uniform fallback branch can never be reached. -/
theorem pareto_frequency_positive (M : List (List ℚ)) :
    (∀ i ∈ nonDominated M, 1 ≤ bestFrequency M i) ∧
    (nonDominated M ≠ [] → 0 < ((nonDominated M).map (bestFrequency M)).sum) := by
  have hfreq : ∀ i ∈ nonDominated M, 1 ≤ bestFrequency M i := by
    intro i hi
    have hp : i ∈ paretoSet M := (List.mem_filter.mp hi).1
    unfold paretoSet at hp
    have hp2 := List.mem_filter.mp hp
    rw [List.any_eq_true] at hp2
    obtain ⟨-, j, hj, hcont⟩ := hp2
    unfold bestFrequency
    have hpos : 0 < (List.range (ncolsOf M)).countP
        (fun j => (bestIndices M j).contains i) := by
      rw [List.countP_pos_iff]
      exact ⟨j, hj, hcont⟩
    omega
  refine ⟨hfreq, ?_⟩
  intro hne
  cases hnd : nonDominated M with
  | nil => exact absurd hnd hne
  | cons x rest =>
    have hx : 1 ≤ bestFrequency M x := hfreq x (by rw [hnd]; exact List.mem_cons_self x rest)
    simp only [List.map_cons, List.sum_cons]
    omega

/-- C10 witness: the frequency facts at a concrete one-by-one matrix. -/
theorem pareto_frequency_positive_witness :
    1 ≤ bestFrequency [[(1:ℚ)]] 0 ∧
    0 < ((nonDominated [[(1:ℚ)]]).map (bestFrequency [[(1:ℚ)]])).sum :=
  ⟨(pareto_frequency_positive [[(1:ℚ)]]).1 0 (by decide),
   (pareto_frequency_positive [[(1:ℚ)]]).2 (by decide)⟩

/-- C7 counterexample: on an output carrying only auxiliary artifacts and
an expected dict carrying nothing, the source scores 1 (the artifact
sub-score applies on output presence alone) while the claimed
both-sides-gated score is 0. -/
theorem aux_artifact_gating_counterexample :
    evaluate_output ⟨none, none, none, some ["q"]⟩ ⟨none, none, none⟩ = 1 ∧
    evaluate_output_specGated ⟨none, none, none, some ["q"]⟩ ⟨none, none, none⟩ = 0 := by
  constructor
  · norm_num [evaluate_output, subScores, qmean, cypher_score]
  · norm_num [evaluate_output_specGated, subScores_specGated]

/-- C7 (corrected): the score averages exactly the applicable sub-scores
and is 0 when none applies, with the corrected gating: the first three
sub-scores require the relevant field on both sides, while the
auxiliary-artifact sub-score applies whenever the output carries its field,
regardless of the expected dict; the result always lies in the unit
interval. -/
theorem evaluate_output_score_amended (o : Output) (e : Expected) :
    (0 ≤ evaluate_output o e ∧ evaluate_output o e ≤ 1) ∧
    (subScores o e = [] → evaluate_output o e = 0) ∧
    (subScores o e = [] ↔
      (o.nodes = none ∨ e.expected_nodes = none) ∧
      (o.relationships = none ∨ e.expected_relationships = none) ∧
      (o.alerts = none ∨ e.known_patterns = none) ∧
      o.cypher_queries = none) := by
  refine ⟨?_, ?_, ?_⟩
  · unfold evaluate_output
    split_ifs with h
    · norm_num
    · exact qmean_mem _ (subScores_mem o e)
  · intro h
    unfold evaluate_output
    rw [if_pos h]
  · obtain ⟨n, r, a, c⟩ := o
    obtain ⟨en, er, ek⟩ := e
    cases n <;> cases en <;> cases r <;> cases er <;> cases a <;> cases ek <;> cases c <;>
      simp [subScores]

/-- C7 witness: the amended statement at the counterexample input. -/
theorem evaluate_output_score_amended_witness :
    (0 ≤ evaluate_output ⟨none, none, none, some ["q"]⟩ ⟨none, none, none⟩ ∧
      evaluate_output ⟨none, none, none, some ["q"]⟩ ⟨none, none, none⟩ ≤ 1) ∧
    (subScores ⟨none, none, none, some ["q"]⟩ ⟨none, none, none⟩ = [] →
      evaluate_output ⟨none, none, none, some ["q"]⟩ ⟨none, none, none⟩ = 0) ∧
    (subScores ⟨none, none, none, some ["q"]⟩ ⟨none, none, none⟩ = [] ↔
      ((Output.mk none none none (some ["q"])).nodes = none ∨
        (Expected.mk none none none).expected_nodes = none) ∧
      ((Output.mk none none none (some ["q"])).relationships = none ∨
        (Expected.mk none none none).expected_relationships = none) ∧
      ((Output.mk none none none (some ["q"])).alerts = none ∨
        (Expected.mk none none none).known_patterns = none) ∧
      (Output.mk none none none (some ["q"])).cypher_queries = none) :=
  evaluate_output_score_amended ⟨none, none, none, some ["q"]⟩ ⟨none, none, none⟩

/-- C8 (confirmed): mutation changes exactly the chosen stage — its prompt
is replaced and its version incremented by one — while every other stage
and the stage sequence are carried over unchanged; the parent value itself
is never modified (the embedding is pure, matching the deepcopy in the
source, and the loop extends the pool without touching existing entries). -/
theorem mutation_frame (parent : ToastNeo4jPipeline) (mname newP : String) (m : ToastModule)
    (hm : lookupModule parent mname = some m) :
    lookupModule (mutateCandidate parent mname newP) mname =
      some { m with prompt := newP, version := m.version + 1 } ∧
    (∀ other, other ≠ mname →
      lookupModule (mutateCandidate parent mname newP) other = lookupModule parent other) ∧
    (mutateCandidate parent mname newP).module_sequence = parent.module_sequence := by
  have hk : ∀ kv : String × ToastModule,
      ((fun kv : String × ToastModule =>
        if kv.fst == mname then
          (kv.fst, { kv.snd with prompt := newP, version := kv.snd.version + 1 }) else kv) kv).fst
        = kv.fst := by
    intro kv
    by_cases h : (kv.fst == mname) = true <;> simp [h]
  refine ⟨?_, ?_, rfl⟩
  · show ((parent.modules.map _).find? (fun kv => kv.fst == mname)).map Prod.snd = _
    rw [find_key_map _ _ hk]
    unfold lookupModule at hm
    cases hf : parent.modules.find? (fun kv => kv.fst == mname) with
    | none => rw [hf] at hm; simp at hm
    | some kv0 =>
      rw [hf] at hm
      rw [Option.map_some'] at hm
      rw [Option.some_inj] at hm
      have hpred : (kv0.fst == mname) = true := by
        have h2 := List.find?_some hf
        simpa using h2
      simp [hpred, hm]
      rw [if_pos (show kv0.fst = mname by simpa using hpred)]
  · intro other hne
    show ((parent.modules.map _).find? (fun kv => kv.fst == other)).map Prod.snd = _
    rw [find_key_map _ _ hk]
    unfold lookupModule
    cases hf : parent.modules.find? (fun kv => kv.fst == other) with
    | none => rfl
    | some kv0 =>
      have hpred : (kv0.fst == other) = true := by
        have h2 := List.find?_some hf
        simpa using h2
      have hfst : kv0.fst = other := by simpa using hpred
      have hno : (kv0.fst == mname) = false := by
        rw [hfst]
        simpa using hne
      simp [hno]
      rw [if_neg (show ¬ kv0.fst = mname by rw [hfst]; exact hne)]

/-- C8 witness: mutating the single stage of the concrete seed. -/
theorem mutation_frame_witness :
    lookupModule (mutateCandidate seed0 "m" "p1") "m" =
      some { name := "m", prompt := "p1", version := 2 } ∧
    lookupModule (mutateCandidate seed0 "m" "p1") "other" = lookupModule seed0 "other" ∧
    (mutateCandidate seed0 "m" "p1").module_sequence = seed0.module_sequence := by
  have h := mutation_frame seed0 "m" "p1" ⟨"m", "p0", 1⟩ rfl
  exact ⟨h.1, h.2.1 "other" (by decide), h.2.2⟩

/-- C9 (confirmed): with no client configured, two `create_completion`
calls on equal message lists extract to the same text, and that text is the
deterministic content-derived fallback string built from the messages. -/
theorem no_client_deterministic (m1 m2 : List Message) (h : m1 = m2) :
    extract_text_from_response (create_completion_no_client m1) =
      extract_text_from_response (create_completion_no_client m2) ∧
    extract_text_from_response (create_completion_no_client m1) = fallbackText m1 := by
  subst h
  refine ⟨rfl, ?_⟩
  unfold extract_text_from_response create_completion_no_client
  dsimp only
  rw [Option.getD_some]
  rw [if_pos (fallbackText_ne_empty m1)]

/-- C9 witness: the deterministic fallback at a concrete message list. -/
theorem no_client_deterministic_witness :
    extract_text_from_response (create_completion_no_client [⟨some "user", some "hi"⟩]) =
      extract_text_from_response (create_completion_no_client [⟨some "user", some "hi"⟩]) ∧
    extract_text_from_response (create_completion_no_client [⟨some "user", some "hi"⟩]) =
      fallbackText [⟨some "user", some "hi"⟩] :=
  no_client_deterministic _ _ rfl

end Gepa
